import Mathlib

/-!
# Verification of the Skilltree-NFT ledger (`src/capsule/src/lib.rs`)

Shallow embedding of the canister's state and entry points.

Modelling conventions:
* `Principal` is an opaque identity with decidable equality, modelled as `ℕ`.
* Rust `u64` values are modelled as `ℕ` (the spec's data model treats prices,
  balances and royalties as non-negative integers; the one subtraction in the
  code, `buyer_balance - price`, is guarded by `buyer_balance >= price`).
* `HashMap<K, V>` fields of the store are modelled as total functions
  `K → Option V` (for the NFT table) or `K → ℕ` (for balances and royalties,
  where every read in the source defaults an absent entry to `0` via
  `unwrap_or(&0)` / `entry(..).or_insert(0)`), with `HashMap::insert`
  becoming `Function.update`.
* The `String` errors of the source are modelled as a closed inductive type
  `Err`; `Err.message` recovers the exact message text of the source.
* The asynchronous inter-canister call inside `add_balance` is modelled by
  passing the call's outcome (`TransferOutcome`) as an explicit argument:
  the state threaded through the function is the state at the moment the
  call returns, which is exactly what the post-call code observes.
* `Vec`-returning queries (`get_user_nfts`, `get_active_nfts`) collect the
  values of a `HashMap` filtered by a predicate; with the map modelled as a
  function they are modelled as the filtered map itself (an id is sent to
  `some nft` exactly when the source's filter would keep that `nft`).
-/

abbrev Principal : Type := ℕ

/-- The `SkillNFT` struct of the source. -/
structure SkillNFT where
  id : ℕ
  title : String
  description : String
  creator : Principal
  price : ℕ
  unlock_duration : Option ℕ
  metadata : List (String × String)
  owner : Principal
  resale_price : Option ℕ
  is_active : Bool
deriving DecidableEq

/-- The `SkillTreeStorage` struct of the source: the whole canister state. -/
structure SkillTreeStorage where
  nfts : ℕ → Option SkillNFT
  next_id : ℕ
  balances : Principal → ℕ
  creator_royalties : Principal → ℕ

/-- Initial state `SkillTreeStorage::default()`: empty maps, counter at zero. -/
def initState : SkillTreeStorage :=
  { nfts := fun _ => none
    next_id := 0
    balances := fun _ => 0
    creator_royalties := fun _ => 0 }

/-- The error strings of the source, as a closed variant type. -/
inductive Err where
  | titleEmpty
  | descriptionEmpty
  | priceZero
  | nftNotFound
  | nftNotActive
  | selfPurchase
  | insufficientBalance
  | resalePriceZero
  | notOwnerResale
  | notCreatorDeactivate
  | notOwnerTransfer
  | inactiveTransfer
  | selfTransfer
  | amountZero
  | transferFailed (detail : String)
deriving DecidableEq

/-- The exact message text each error carries in the source. -/
def Err.message : Err → String
  | .titleEmpty => "Title cannot be empty"
  | .descriptionEmpty => "Description cannot be empty"
  | .priceZero => "Price must be greater than zero"
  | .nftNotFound => "NFT not found"
  | .nftNotActive => "NFT is not active"
  | .selfPurchase => "Cannot purchase your own NFT"
  | .insufficientBalance => "Insufficient balance"
  | .resalePriceZero => "Resale price must be greater than zero"
  | .notOwnerResale => "Only the owner can set the resale price"
  | .notCreatorDeactivate => "Only the creator can deactivate the NFT"
  | .notOwnerTransfer => "Only the current owner can transfer ownership"
  | .inactiveTransfer => "Cannot transfer an inactive NFT"
  | .selfTransfer => "New owner must be different from the current owner"
  | .amountZero => "Amount must be greater than zero"
  | .transferFailed d => "Failed to add balance: " ++ d

/-- Model of Rust's `str::trim`: drop leading and trailing whitespace
characters. (Defined by structural recursion over the character list so that
it evaluates inside the kernel; Lean's own `String.trim` is defined by
well-founded recursion over byte positions and does not reduce.) -/
def String.rustTrim (s : String) : String :=
  ⟨((s.data.dropWhile Char.isWhitespace).reverse.dropWhile Char.isWhitespace).reverse⟩

/-- Decidable equality for the result type of the fallible entry points. -/
instance exceptErrDecEq : DecidableEq (Except Err Unit) := fun a b =>
  match a, b with
  | .ok (), .ok () => isTrue rfl
  | .error e1, .error e2 =>
    if h : e1 = e2 then isTrue (by rw [h])
    else isFalse (fun hh => h (Except.error.inj hh))
  | .ok _, .error _ => isFalse (fun hh => Except.noConfusion hh)
  | .error _, .ok _ => isFalse (fun hh => Except.noConfusion hh)

/-- Model of `validate_input`: title and description non-empty after trimming, price positive. -/
def validate_input (title description : String) (price : ℕ) : Except Err Unit :=
  if title.rustTrim = "" then .error .titleEmpty
  else if description.rustTrim = "" then .error .descriptionEmpty
  else if price = 0 then .error .priceZero
  else .ok ()

/-- Model of `generate_unique_id`: returns `next_id` and increments it. -/
def generate_unique_id (s : SkillTreeStorage) : ℕ × SkillTreeStorage :=
  (s.next_id, { s with next_id := s.next_id + 1 })

/-- Model of `mint_skill_nft`. The caller (`api::caller()`) is an explicit argument. -/
def mint_skill_nft (s : SkillTreeStorage) (caller : Principal)
    (title description : String) (price : ℕ)
    (unlock_duration : Option ℕ) (metadata : List (String × String)) :
    Except Err ℕ × SkillTreeStorage :=
  match validate_input title description price with
  | .error e => (.error e, s)
  | .ok _ =>
    let p := generate_unique_id s
    let id := p.1
    let s1 := p.2
    let nft : SkillNFT :=
      { id := id, title := title, description := description, creator := caller
        price := price, unlock_duration := unlock_duration, metadata := metadata
        owner := caller, resale_price := none, is_active := true }
    (.ok id, { s1 with nfts := Function.update s1.nfts id (some nft) })

/-- Model of `purchase_skill_nft`. The buyer (`api::caller()`) is an explicit argument. -/
def purchase_skill_nft (s : SkillTreeStorage) (buyer : Principal) (nft_id : ℕ) :
    Except Err Unit × SkillTreeStorage :=
  match s.nfts nft_id with
  | none => (.error .nftNotFound, s)
  | some nft_details =>
    if nft_details.is_active = false then (.error .nftNotActive, s)
    else if buyer = nft_details.owner then (.error .selfPurchase, s)
    else
      let buyer_balance := s.balances buyer
      if buyer_balance < nft_details.price then (.error .insufficientBalance, s)
      else
        let balances1 := Function.update s.balances buyer (buyer_balance - nft_details.price)
        let creator_balance := balances1 nft_details.creator
        let balances2 :=
          Function.update balances1 nft_details.creator (creator_balance + nft_details.price)
        let nft := { nft_details with owner := buyer, resale_price := none }
        let royalty := nft_details.price / 10
        let creator_royalty := s.creator_royalties nft_details.creator
        let royalties2 :=
          Function.update s.creator_royalties nft_details.creator (creator_royalty + royalty)
        (.ok (), { s with
          balances := balances2
          nfts := Function.update s.nfts nft_id (some nft)
          creator_royalties := royalties2 })

/-- Model of `set_resale_price`. The caller (`api::caller()`) is an explicit argument;
the positivity check precedes the state access, as in the source. -/
def set_resale_price (s : SkillTreeStorage) (caller : Principal) (nft_id price : ℕ) :
    Except Err Unit × SkillTreeStorage :=
  if price = 0 then (.error .resalePriceZero, s)
  else
    match s.nfts nft_id with
    | some nft =>
      if nft.owner ≠ caller then (.error .notOwnerResale, s)
      else
        (.ok (), { s with
          nfts := Function.update s.nfts nft_id (some { nft with resale_price := some price }) })
    | none => (.error .nftNotFound, s)

/-- Model of `get_nft`: pure lookup. -/
def get_nft (s : SkillTreeStorage) (nft_id : ℕ) : Option SkillNFT :=
  s.nfts nft_id

/-- Model of `get_user_nfts`: the NFT table filtered by `nft.owner == user`
(the source collects the surviving values into a `Vec`). -/
def get_user_nfts (s : SkillTreeStorage) (user : Principal) : ℕ → Option SkillNFT :=
  fun nft_id =>
    match s.nfts nft_id with
    | some nft => if nft.owner = user then some nft else none
    | none => none

/-- Model of `get_active_nfts`: the NFT table filtered by `nft.is_active`
(the source collects the surviving values into a `Vec`). -/
def get_active_nfts (s : SkillTreeStorage) : ℕ → Option SkillNFT :=
  fun nft_id =>
    match s.nfts nft_id with
    | some nft => if nft.is_active then some nft else none
    | none => none

/-- Model of `deactivate_nft`. The caller (`api::caller()`) is an explicit argument. -/
def deactivate_nft (s : SkillTreeStorage) (caller : Principal) (nft_id : ℕ) :
    Except Err Unit × SkillTreeStorage :=
  match s.nfts nft_id with
  | some nft =>
    if nft.creator ≠ caller then (.error .notCreatorDeactivate, s)
    else
      (.ok (), { s with
        nfts := Function.update s.nfts nft_id (some { nft with is_active := false }) })
  | none => (.error .nftNotFound, s)

/-- Model of `transfer_nft_ownership`. The caller (`api::caller()`) is an explicit
argument; the checks appear in source order (existence, ownership,
activity, self-transfer). -/
def transfer_nft_ownership (s : SkillTreeStorage) (caller : Principal)
    (nft_id : ℕ) (new_owner : Principal) :
    Except Err Unit × SkillTreeStorage :=
  match s.nfts nft_id with
  | none => (.error .nftNotFound, s)
  | some nft =>
    if nft.owner ≠ caller then (.error .notOwnerTransfer, s)
    else if nft.is_active = false then (.error .inactiveTransfer, s)
    else if new_owner = caller then (.error .selfTransfer, s)
    else
      (.ok (), { s with
        nfts := Function.update s.nfts nft_id
          (some { nft with owner := new_owner, resale_price := none }) })

/-- Outcome of the awaited `icrc1_transfer` inter-canister call inside
`add_balance`: either a block index or an error description. -/
inductive TransferOutcome where
  | ok (block_index : ℕ)
  | err (detail : String)
deriving DecidableEq

/-- Model of `add_balance`. The outcome of the external ledger call is an explicit
argument; the state `s` is the canister state observed after the call
returns (the pre-call code performs no state access at all, so the amount
check is the same on either side of the await). -/
def add_balance (s : SkillTreeStorage) (caller : Principal) (amount : ℕ)
    (transfer_result : TransferOutcome) :
    Except Err Unit × SkillTreeStorage :=
  if amount = 0 then (.error .amountZero, s)
  else
    match transfer_result with
    | .ok _block_index =>
      (.ok (), { s with
        balances := Function.update s.balances caller (s.balances caller + amount) })
    | .err detail => (.error (.transferFailed detail), s)

/-! ## Operation traces

A single request to the canister, with the caller identity supplied by the
host and, for `add_balance`, the external call's outcome. Queries perform no
mutation and are omitted from the step relation. -/

inductive Op where
  | mint (caller : Principal) (title description : String) (price : ℕ)
      (unlock_duration : Option ℕ) (metadata : List (String × String))
  | purchase (caller : Principal) (nft_id : ℕ)
  | setResalePrice (caller : Principal) (nft_id price : ℕ)
  | deactivate (caller : Principal) (nft_id : ℕ)
  | transfer (caller : Principal) (nft_id : ℕ) (new_owner : Principal)
  | topUp (caller : Principal) (amount : ℕ) (transfer_result : TransferOutcome)

/-- State transition of one request (the state component of each entry point). -/
def step (s : SkillTreeStorage) : Op → SkillTreeStorage
  | .mint c t d p u m => (mint_skill_nft s c t d p u m).2
  | .purchase c nft_id => (purchase_skill_nft s c nft_id).2
  | .setResalePrice c nft_id price => (set_resale_price s c nft_id price).2
  | .deactivate c nft_id => (deactivate_nft s c nft_id).2
  | .transfer c nft_id o => (transfer_nft_ownership s c nft_id o).2
  | .topUp c amount tr => (add_balance s c amount tr).2

/-- Run a sequence of requests. -/
def run (s : SkillTreeStorage) : List Op → SkillTreeStorage
  | [] => s
  | op :: rest => run (step s op) rest

/-- The id returned by a request when it is a successful mint, else `none`. -/
def mintResult (s : SkillTreeStorage) : Op → Option ℕ
  | .mint c t d p u m =>
    match (mint_skill_nft s c t d p u m).1 with
    | .ok id => some id
    | .error _ => none
  | _ => none

/-- The ids returned by the successful mints of a trace, in order. -/
def mintedIds (s : SkillTreeStorage) : List Op → List ℕ
  | [] => []
  | op :: rest => (mintResult s op).toList ++ mintedIds (step s op) rest

/-- Every id present in the NFT table is below the `next_id` counter. -/
def nextIdInvariant (s : SkillTreeStorage) : Prop :=
  ∀ id nft, s.nfts id = some nft → id < s.next_id

/-- The principals whose balance entries a request may touch: the buyer and
the asset's creator for a purchase, the caller for a top-up. -/
def opPrincipals (s : SkillTreeStorage) : Op → List Principal
  | .purchase c nft_id =>
    c :: (match s.nfts nft_id with
      | some nft => [nft.creator]
      | none => [])
  | .topUp c _ _ => [c]
  | _ => []

/-- The amount by which a request changes the total of all balances:
`amount` for a successful top-up, `0` for everything else. -/
def opBalanceDelta (s : SkillTreeStorage) : Op → ℕ
  | .topUp c amount tr =>
    match (add_balance s c amount tr).1 with
    | .ok _ => amount
    | .error _ => 0
  | _ => 0

/-! ## Concrete fixture states used by counterexamples and witnesses -/

/-- An active NFT created and still owned by principal `0`, price `5`. -/
def nftListed : SkillNFT :=
  { id := 0, title := "Rust Basics", description := "intro", creator := 0
    price := 5, unlock_duration := none, metadata := []
    owner := 0, resale_price := none, is_active := true }

/-- A store holding `nftListed` under id `0`; principal `1` has balance `5`. -/
def listedStore : SkillTreeStorage :=
  { nfts := fun n => if n = 0 then some nftListed else none
    next_id := 1
    balances := fun p => if p = 1 then 5 else 0
    creator_royalties := fun _ => 0 }

/-- An active NFT created by principal `0` but currently owned by principal
`1` (the creator sold or transferred it away), price `10`. -/
def nftBuyback : SkillNFT :=
  { id := 0, title := "Rust Basics", description := "intro", creator := 0
    price := 10, unlock_duration := none, metadata := []
    owner := 1, resale_price := none, is_active := true }

/-- A store holding `nftBuyback` under id `0`; the creator (principal `0`)
has balance `10`, enough to buy the asset back. -/
def buybackStore : SkillTreeStorage :=
  { nfts := fun n => if n = 0 then some nftBuyback else none
    next_id := 1
    balances := fun p => if p = 0 then 10 else 0
    creator_royalties := fun _ => 0 }

/-- An inactive NFT created and owned by principal `0`. -/
def nftInactive : SkillNFT :=
  { id := 0, title := "Rust Basics", description := "intro", creator := 0
    price := 5, unlock_duration := none, metadata := []
    owner := 0, resale_price := none, is_active := false }

/-- A store holding `nftInactive` under id `0`. -/
def inactiveStore : SkillTreeStorage :=
  { nfts := fun n => if n = 0 then some nftInactive else none
    next_id := 1
    balances := fun _ => 0
    creator_royalties := fun _ => 0 }

/-- A sample failure detail for the external ledger call. -/
def failMsg : String := "ledger unavailable"

/-- A sample non-blank title. -/
def sampleTitle : String := "Rust Basics"

/-- A sample non-blank description. -/
def sampleDescr : String := "intro"

/-- A title that is blank after trimming. -/
def blankTitle : String := " "

/-! ## Case-analysis lemmas for the entry points -/

lemma validate_input_ok_iff (title description : String) (price : ℕ) :
    validate_input title description price = .ok () ↔
      title.rustTrim ≠ "" ∧ description.rustTrim ≠ "" ∧ price ≠ 0 := by
  unfold validate_input
  split_ifs <;> simp_all

lemma mint_of_valid (s : SkillTreeStorage) (caller : Principal)
    (title description : String) (price : ℕ) (u : Option ℕ) (m : List (String × String))
    (ht : title.rustTrim ≠ "") (hd : description.rustTrim ≠ "") (hp : price ≠ 0) :
    mint_skill_nft s caller title description price u m =
      (.ok s.next_id,
       { s with
          next_id := s.next_id + 1
          nfts := Function.update s.nfts s.next_id (some
            { id := s.next_id, title := title, description := description
              creator := caller, price := price, unlock_duration := u
              metadata := m, owner := caller, resale_price := none
              is_active := true }) }) := by
  unfold mint_skill_nft generate_unique_id
  have hv : validate_input title description price = .ok () :=
    (validate_input_ok_iff title description price).mpr ⟨ht, hd, hp⟩
  rw [hv]

lemma mint_of_invalid (s : SkillTreeStorage) (caller : Principal)
    (title description : String) (price : ℕ) (u : Option ℕ) (m : List (String × String))
    (h : title.rustTrim = "" ∨ description.rustTrim = "" ∨ price = 0) :
    ∃ e, mint_skill_nft s caller title description price u m = (.error e, s) := by
  unfold mint_skill_nft validate_input
  split_ifs with h1 h2 h3
  · exact ⟨_, rfl⟩
  · exact ⟨_, rfl⟩
  · exact ⟨_, rfl⟩
  · tauto

lemma mint_cases (s : SkillTreeStorage) (c : Principal) (t d : String) (p : ℕ)
    (u : Option ℕ) (m : List (String × String)) :
    (∃ e, mint_skill_nft s c t d p u m = (.error e, s)) ∨
    ∃ nft, (mint_skill_nft s c t d p u m).2 =
      { s with next_id := s.next_id + 1
               nfts := Function.update s.nfts s.next_id (some nft) } := by
  unfold mint_skill_nft generate_unique_id
  rcases hv : validate_input t d p with e | v
  · left; exact ⟨e, rfl⟩
  · right; exact ⟨_, rfl⟩

lemma purchase_cases (s : SkillTreeStorage) (buyer : Principal) (nft_id : ℕ) :
    (∃ e, purchase_skill_nft s buyer nft_id = (.error e, s)) ∨
    ∃ nft, s.nfts nft_id = some nft ∧ nft.is_active = true ∧ buyer ≠ nft.owner ∧
      nft.price ≤ s.balances buyer ∧
      purchase_skill_nft s buyer nft_id =
        (.ok (), { s with
          balances := Function.update
            (Function.update s.balances buyer (s.balances buyer - nft.price))
            nft.creator
            (Function.update s.balances buyer (s.balances buyer - nft.price) nft.creator
              + nft.price)
          nfts := Function.update s.nfts nft_id
            (some { nft with owner := buyer, resale_price := none })
          creator_royalties := Function.update s.creator_royalties nft.creator
            (s.creator_royalties nft.creator + nft.price / 10) }) := by
  rcases h : s.nfts nft_id with _ | nft
  · left
    refine ⟨Err.nftNotFound, ?_⟩
    simp [purchase_skill_nft, h]
  · simp only [purchase_skill_nft, h]
    split_ifs with h1 h2 h3
    · left; exact ⟨_, rfl⟩
    · left; exact ⟨_, rfl⟩
    · left; exact ⟨_, rfl⟩
    · right
      refine ⟨nft, rfl, ?_, h2, Nat.le_of_not_lt h3, rfl⟩
      cases hb : nft.is_active
      · exact absurd hb h1
      · rfl

lemma set_resale_price_cases (s : SkillTreeStorage) (c : Principal) (nft_id p : ℕ) :
    (∃ e, set_resale_price s c nft_id p = (.error e, s)) ∨
    ∃ nft, s.nfts nft_id = some nft ∧
      (set_resale_price s c nft_id p).2 =
        { s with
          nfts := Function.update s.nfts nft_id
            (some { nft with resale_price := some p }) } := by
  by_cases hp : p = 0
  · left
    refine ⟨Err.resalePriceZero, ?_⟩
    simp [set_resale_price, hp]
  · rcases h : s.nfts nft_id with _ | nft
    · left
      refine ⟨Err.nftNotFound, ?_⟩
      simp [set_resale_price, hp, h]
    · by_cases ho : nft.owner = c
      · right
        refine ⟨nft, rfl, ?_⟩
        simp [set_resale_price, hp, h, ho]
      · left
        refine ⟨Err.notOwnerResale, ?_⟩
        simp [set_resale_price, hp, h, ho]

lemma deactivate_cases (s : SkillTreeStorage) (c : Principal) (nft_id : ℕ) :
    (∃ e, deactivate_nft s c nft_id = (.error e, s)) ∨
    ∃ nft, s.nfts nft_id = some nft ∧
      (deactivate_nft s c nft_id).2 =
        { s with
          nfts := Function.update s.nfts nft_id
            (some { nft with is_active := false }) } := by
  rcases h : s.nfts nft_id with _ | nft
  · left
    refine ⟨Err.nftNotFound, ?_⟩
    simp [deactivate_nft, h]
  · by_cases hc : nft.creator = c
    · right
      refine ⟨nft, rfl, ?_⟩
      simp [deactivate_nft, h, hc]
    · left
      refine ⟨Err.notCreatorDeactivate, ?_⟩
      simp [deactivate_nft, h, hc]

lemma transfer_cases (s : SkillTreeStorage) (c : Principal) (nft_id : ℕ) (o : Principal) :
    (∃ e, transfer_nft_ownership s c nft_id o = (.error e, s)) ∨
    ∃ nft, s.nfts nft_id = some nft ∧ nft.owner = c ∧ nft.is_active = true ∧ o ≠ c ∧
      transfer_nft_ownership s c nft_id o =
        (.ok (), { s with
          nfts := Function.update s.nfts nft_id
            (some { nft with owner := o, resale_price := none }) }) := by
  rcases h : s.nfts nft_id with _ | nft
  · left
    refine ⟨Err.nftNotFound, ?_⟩
    simp [transfer_nft_ownership, h]
  · simp only [transfer_nft_ownership, h]
    split_ifs with h1 h2 h3
    · left; exact ⟨_, rfl⟩
    · left; exact ⟨_, rfl⟩
    · left; exact ⟨_, rfl⟩
    · right
      refine ⟨nft, rfl, not_not.mp h1, ?_, h3, rfl⟩
      cases hb : nft.is_active
      · exact absurd hb h2
      · rfl

lemma add_balance_cases (s : SkillTreeStorage) (c : Principal) (a : ℕ)
    (tr : TransferOutcome) :
    (∃ e, add_balance s c a tr = (.error e, s)) ∨
    ((add_balance s c a tr).1 = .ok () ∧
      (add_balance s c a tr).2 =
        { s with balances := Function.update s.balances c (s.balances c + a) }) := by
  unfold add_balance
  split_ifs with ha
  · left; exact ⟨_, rfl⟩
  · rcases tr with blk | d
    · right; exact ⟨rfl, rfl⟩
    · left; exact ⟨_, rfl⟩

/-! ## Frame lemmas -/

lemma mint_balances (s : SkillTreeStorage) (c : Principal) (t d : String) (p : ℕ)
    (u : Option ℕ) (m : List (String × String)) :
    (mint_skill_nft s c t d p u m).2.balances = s.balances := by
  rcases mint_cases s c t d p u m with ⟨e, h⟩ | ⟨nft, h⟩
  · rw [congrArg Prod.snd h]
  · rw [h]

lemma set_resale_price_balances (s : SkillTreeStorage) (c : Principal) (nft_id p : ℕ) :
    (set_resale_price s c nft_id p).2.balances = s.balances := by
  rcases set_resale_price_cases s c nft_id p with ⟨e, h⟩ | ⟨nft, _, h⟩
  · rw [congrArg Prod.snd h]
  · rw [h]

lemma deactivate_balances (s : SkillTreeStorage) (c : Principal) (nft_id : ℕ) :
    (deactivate_nft s c nft_id).2.balances = s.balances := by
  rcases deactivate_cases s c nft_id with ⟨e, h⟩ | ⟨nft, _, h⟩
  · rw [congrArg Prod.snd h]
  · rw [h]

lemma transfer_balances (s : SkillTreeStorage) (c : Principal) (nft_id : ℕ) (o : Principal) :
    (transfer_nft_ownership s c nft_id o).2.balances = s.balances := by
  rcases transfer_cases s c nft_id o with ⟨e, h⟩ | ⟨nft, _, _, _, _, h⟩
  · rw [congrArg Prod.snd h]
  · rw [congrArg Prod.snd h]

lemma purchase_next_id (s : SkillTreeStorage) (b : Principal) (nft_id : ℕ) :
    (purchase_skill_nft s b nft_id).2.next_id = s.next_id := by
  rcases purchase_cases s b nft_id with ⟨e, h⟩ | ⟨nft, _, _, _, _, h⟩
  · rw [congrArg Prod.snd h]
  · rw [congrArg Prod.snd h]

lemma add_balance_next_id (s : SkillTreeStorage) (c : Principal) (a : ℕ)
    (tr : TransferOutcome) :
    (add_balance s c a tr).2.next_id = s.next_id := by
  rcases add_balance_cases s c a tr with ⟨e, h⟩ | ⟨_, h⟩
  · rw [congrArg Prod.snd h]
  · rw [h]

lemma add_balance_nfts (s : SkillTreeStorage) (c : Principal) (a : ℕ)
    (tr : TransferOutcome) :
    (add_balance s c a tr).2.nfts = s.nfts := by
  rcases add_balance_cases s c a tr with ⟨e, h⟩ | ⟨_, h⟩
  · rw [congrArg Prod.snd h]
  · rw [h]

/-! ## The next-id invariant and its preservation -/

lemma initState_invariant : nextIdInvariant initState := by
  intro id nft h
  simp [initState] at h

lemma update_invariant_of_mem {f : ℕ → Option SkillNFT} {n k : ℕ} {nftk : SkillNFT}
    (hinv : ∀ id nft, f id = some nft → id < n) (hk : f k = some nftk) (v : SkillNFT) :
    ∀ id nft, Function.update f k (some v) id = some nft → id < n := by
  intro id nft h
  by_cases hik : id = k
  · subst hik; exact hinv id nftk hk
  · rw [Function.update_noteq hik] at h
    exact hinv id nft h

lemma step_invariant (s : SkillTreeStorage) (op : Op) (hinv : nextIdInvariant s) :
    nextIdInvariant (step s op) := by
  cases op with
  | mint c t d p u m =>
    show nextIdInvariant (mint_skill_nft s c t d p u m).2
    rcases mint_cases s c t d p u m with ⟨e, h⟩ | ⟨nft, h⟩
    · rw [congrArg Prod.snd h]; exact hinv
    · rw [h]
      intro id nft' hid
      dsimp only at hid ⊢
      by_cases hik : id = s.next_id
      · subst hik; exact Nat.lt_succ_self _
      · rw [Function.update_noteq hik] at hid
        exact Nat.lt_succ_of_lt (hinv id nft' hid)
  | purchase c nft_id =>
    show nextIdInvariant (purchase_skill_nft s c nft_id).2
    rcases purchase_cases s c nft_id with ⟨e, h⟩ | ⟨nft, hn, _, _, _, h⟩
    · rw [congrArg Prod.snd h]; exact hinv
    · rw [congrArg Prod.snd h]
      exact update_invariant_of_mem hinv hn _
  | setResalePrice c nft_id p =>
    show nextIdInvariant (set_resale_price s c nft_id p).2
    rcases set_resale_price_cases s c nft_id p with ⟨e, h⟩ | ⟨nft, hn, h⟩
    · rw [congrArg Prod.snd h]; exact hinv
    · rw [h]
      exact update_invariant_of_mem hinv hn _
  | deactivate c nft_id =>
    show nextIdInvariant (deactivate_nft s c nft_id).2
    rcases deactivate_cases s c nft_id with ⟨e, h⟩ | ⟨nft, hn, h⟩
    · rw [congrArg Prod.snd h]; exact hinv
    · rw [h]
      exact update_invariant_of_mem hinv hn _
  | transfer c nft_id o =>
    show nextIdInvariant (transfer_nft_ownership s c nft_id o).2
    rcases transfer_cases s c nft_id o with ⟨e, h⟩ | ⟨nft, hn, _, _, _, h⟩
    · rw [congrArg Prod.snd h]; exact hinv
    · rw [congrArg Prod.snd h]
      exact update_invariant_of_mem hinv hn _
  | topUp c a tr =>
    show nextIdInvariant (add_balance s c a tr).2
    intro id nft hid
    rw [add_balance_nfts] at hid
    rw [add_balance_next_id]
    exact hinv id nft hid

lemma step_next_id_mono (s : SkillTreeStorage) (op : Op) :
    s.next_id ≤ (step s op).next_id := by
  cases op with
  | mint c t d p u m =>
    show s.next_id ≤ (mint_skill_nft s c t d p u m).2.next_id
    rcases mint_cases s c t d p u m with ⟨e, h⟩ | ⟨nft, h⟩
    · rw [congrArg Prod.snd h]
    · rw [h]; exact Nat.le_succ _
  | purchase c nft_id =>
    show s.next_id ≤ (purchase_skill_nft s c nft_id).2.next_id
    rw [purchase_next_id]
  | setResalePrice c nft_id p =>
    show s.next_id ≤ (set_resale_price s c nft_id p).2.next_id
    rcases set_resale_price_cases s c nft_id p with ⟨e, h⟩ | ⟨nft, _, h⟩
    · rw [congrArg Prod.snd h]
    · rw [h]
  | deactivate c nft_id =>
    show s.next_id ≤ (deactivate_nft s c nft_id).2.next_id
    rcases deactivate_cases s c nft_id with ⟨e, h⟩ | ⟨nft, _, h⟩
    · rw [congrArg Prod.snd h]
    · rw [h]
  | transfer c nft_id o =>
    show s.next_id ≤ (transfer_nft_ownership s c nft_id o).2.next_id
    rcases transfer_cases s c nft_id o with ⟨e, h⟩ | ⟨nft, _, _, _, _, h⟩
    · rw [congrArg Prod.snd h]
    · rw [congrArg Prod.snd h]
  | topUp c a tr =>
    show s.next_id ≤ (add_balance s c a tr).2.next_id
    rw [add_balance_next_id]

lemma run_invariant (s : SkillTreeStorage) (ops : List Op) (hinv : nextIdInvariant s) :
    nextIdInvariant (run s ops) := by
  induction ops generalizing s with
  | nil => exact hinv
  | cons op rest ih => exact ih (step s op) (step_invariant s op hinv)

lemma run_next_id_mono (s : SkillTreeStorage) (ops : List Op) :
    s.next_id ≤ (run s ops).next_id := by
  induction ops generalizing s with
  | nil => exact le_refl _
  | cons op rest ih => exact le_trans (step_next_id_mono s op) (ih (step s op))

/-! ## Successful mints along a trace -/

lemma mintResult_some (s : SkillTreeStorage) (op : Op) (id : ℕ)
    (h : mintResult s op = some id) :
    id = s.next_id ∧ (step s op).next_id = s.next_id + 1 := by
  cases op with
  | mint c t d p u m =>
    rcases hv : validate_input t d p with e | v
    · exfalso
      have hm : (mint_skill_nft s c t d p u m).1 = .error e := by
        unfold mint_skill_nft
        rw [hv]
      simp [mintResult, hm] at h
    · cases v
      obtain ⟨ht, hd, hp⟩ := (validate_input_ok_iff t d p).mp hv
      have hm := mint_of_valid s c t d p u m ht hd hp
      have h1 : (mint_skill_nft s c t d p u m).1 = .ok s.next_id := congrArg Prod.fst hm
      constructor
      · simp [mintResult, h1] at h
        omega
      · show (mint_skill_nft s c t d p u m).2.next_id = s.next_id + 1
        rw [congrArg Prod.snd hm]
  | purchase c nft_id => simp [mintResult] at h
  | setResalePrice c nft_id p => simp [mintResult] at h
  | deactivate c nft_id => simp [mintResult] at h
  | transfer c nft_id o => simp [mintResult] at h
  | topUp c a tr => simp [mintResult] at h

lemma mintedIds_lt_next_id (s : SkillTreeStorage) (ops : List Op) :
    ∀ j ∈ mintedIds s ops, j < (run s ops).next_id := by
  induction ops generalizing s with
  | nil => intro j hj; simp [mintedIds] at hj
  | cons op rest ih =>
    intro j hj
    simp only [mintedIds, List.mem_append] at hj
    rcases hj with hj | hj
    · have hm : mintResult s op = some j := by
        rcases ho : mintResult s op with _ | k
        · simp [ho] at hj
        · simp [ho] at hj
          rw [hj]
      obtain ⟨hid, hstep⟩ := mintResult_some s op j hm
      have hmono := run_next_id_mono (step s op) rest
      show j < (run s (op :: rest)).next_id
      simp only [run]
      omega
    · have := ih (step s op) j hj
      simpa [run] using this

lemma mintedIds_ge_next_id (s : SkillTreeStorage) (ops : List Op) :
    ∀ j ∈ mintedIds s ops, s.next_id ≤ j := by
  induction ops generalizing s with
  | nil => intro j hj; simp [mintedIds] at hj
  | cons op rest ih =>
    intro j hj
    simp only [mintedIds, List.mem_append] at hj
    rcases hj with hj | hj
    · rcases ho : mintResult s op with _ | k
      · simp [ho] at hj
      · simp [ho] at hj
        obtain ⟨hid, _⟩ := mintResult_some s op k ho
        omega
    · have h1 := ih (step s op) j hj
      have h2 := step_next_id_mono s op
      omega

lemma mintedIds_sorted (s : SkillTreeStorage) (ops : List Op) :
    List.Sorted (fun a b => a < b) (mintedIds s ops) := by
  induction ops generalizing s with
  | nil => simp [mintedIds]
  | cons op rest ih =>
    rcases ho : mintResult s op with _ | k
    · simpa [mintedIds, ho] using ih (step s op)
    · simp only [mintedIds, ho, Option.toList_some, List.singleton_append]
      refine List.sorted_cons.mpr ⟨?_, ih (step s op)⟩
      intro b hb
      obtain ⟨hid, hstep⟩ := mintResult_some s op k ho
      have := mintedIds_ge_next_id (step s op) rest b hb
      omega

/-! ## Claim theorems -/

/-- C10: for every caller and asset id, calling `set_resale_price` with
price 0 returns the price-validation error and leaves the store untouched,
even when no asset with that id exists; the positivity check runs before the
existence and ownership checks, so the not-found error is never returned when
the price is 0. -/
theorem set_resale_price_zero_short_circuits (s : SkillTreeStorage)
    (caller : Principal) (nft_id : ℕ) :
    set_resale_price s caller nft_id 0 = (.error .resalePriceZero, s) ∧
    Err.resalePriceZero ≠ Err.nftNotFound := by
  refine ⟨?_, by decide⟩
  simp [set_resale_price]

/-- C9 counterexample: principal 1 is not the owner of asset 0 in
`listedStore`, yet calling `set_resale_price` with price 0 fails with the
price-validation error, not the authorization error the claim requires. -/
theorem set_resale_auth_counterexample :
    listedStore.nfts 0 = some nftListed ∧ nftListed.owner ≠ 1 ∧
    (set_resale_price listedStore 1 0 0).1 = .error .resalePriceZero ∧
    (set_resale_price listedStore 1 0 0).1 ≠ .error .notOwnerResale := by
  refine ⟨rfl, by decide, rfl, by decide⟩

/-- C9 (amended): deactivation by any caller other than the creator fails
with the authorization error and leaves the store unchanged; transfer by any
caller other than the owner fails with the authorization error and leaves the
store unchanged; `set_resale_price` by any caller other than the owner leaves
the store unchanged and fails with the authorization error whenever the
requested price is positive (for price 0 it still fails without mutating
anything, but with the price-validation error, as the counterexample shows). -/
theorem authorization_checks (s : SkillTreeStorage) (nft_id : ℕ) (nft : SkillNFT)
    (caller : Principal) (hnft : s.nfts nft_id = some nft) :
    (caller ≠ nft.creator →
      deactivate_nft s caller nft_id = (.error .notCreatorDeactivate, s)) ∧
    (∀ price : ℕ, price ≠ 0 → caller ≠ nft.owner →
      set_resale_price s caller nft_id price = (.error .notOwnerResale, s)) ∧
    (∀ new_owner : Principal, caller ≠ nft.owner →
      transfer_nft_ownership s caller nft_id new_owner = (.error .notOwnerTransfer, s)) ∧
    (∀ price : ℕ, caller ≠ nft.owner →
      ∃ e, set_resale_price s caller nft_id price = (.error e, s)) := by
  refine ⟨?_, ?_, ?_, ?_⟩
  · intro hc
    simp [deactivate_nft, hnft, Ne.symm hc]
  · intro price hp ho
    simp [set_resale_price, hp, hnft, Ne.symm ho]
  · intro o ho
    simp [transfer_nft_ownership, hnft, Ne.symm ho]
  · intro price ho
    by_cases hp : price = 0
    · exact ⟨.resalePriceZero, by simp [set_resale_price, hp]⟩
    · exact ⟨.notOwnerResale, by simp [set_resale_price, hp, hnft, Ne.symm ho]⟩

/-- Witness for the amended C9: in `listedStore` principal 1 is neither the
creator nor the owner of asset 0, and each operation fails as stated. -/
theorem authorization_checks_witness :
    listedStore.nfts 0 = some nftListed ∧
    deactivate_nft listedStore 1 0 = (.error .notCreatorDeactivate, listedStore) ∧
    set_resale_price listedStore 1 0 3 = (.error .notOwnerResale, listedStore) ∧
    transfer_nft_ownership listedStore 1 0 2 = (.error .notOwnerTransfer, listedStore) ∧
    ∃ e, set_resale_price listedStore 1 0 0 = (.error e, listedStore) := by
  obtain ⟨h1, h2, h3, h4⟩ := authorization_checks listedStore 0 nftListed 1 rfl
  exact ⟨rfl, h1 (by decide), h2 3 (by decide) (by decide), h3 2 (by decide),
    h4 0 (by decide)⟩

/-- C2: purchase fails and leaves the entire store unchanged whenever the
asset does not exist, is inactive, is owned by the caller, or costs more than
the caller's balance; in particular self-purchase always fails without
mutating anything. -/
theorem purchase_failure_no_mutation (s : SkillTreeStorage) (buyer : Principal)
    (nft_id : ℕ)
    (h : s.nfts nft_id = none ∨
      ∃ nft, s.nfts nft_id = some nft ∧
        (nft.is_active = false ∨ buyer = nft.owner ∨ s.balances buyer < nft.price)) :
    ∃ e, purchase_skill_nft s buyer nft_id = (.error e, s) := by
  rcases purchase_cases s buyer nft_id with he | ⟨nft, hn, hact, hown, hbal, hok⟩
  · exact he
  · exfalso
    rcases h with h | ⟨nft', hn', hviol⟩
    · rw [hn] at h; exact Option.noConfusion h
    · rw [hn] at hn'
      injection hn' with hnn
      subst hnn
      rcases hviol with hv | hv | hv
      · rw [hact] at hv; exact Bool.noConfusion hv
      · exact hown hv
      · exact Nat.not_lt.mpr hbal hv

/-- Witness for C2: self-purchase of asset 0 by its owner in `listedStore`. -/
theorem purchase_failure_no_mutation_witness :
    (listedStore.nfts 0 = none ∨
      ∃ nft, listedStore.nfts 0 = some nft ∧
        (nft.is_active = false ∨ (0 : Principal) = nft.owner ∨
          listedStore.balances 0 < nft.price)) ∧
    ∃ e, purchase_skill_nft listedStore 0 0 = (.error e, listedStore) := by
  have hh : listedStore.nfts 0 = none ∨
      ∃ nft, listedStore.nfts 0 = some nft ∧
        (nft.is_active = false ∨ (0 : Principal) = nft.owner ∨
          listedStore.balances 0 < nft.price) :=
    Or.inr ⟨nftListed, rfl, Or.inr (Or.inl (by decide))⟩
  exact ⟨hh, purchase_failure_no_mutation listedStore 0 0 hh⟩

/-- C6: mint fails exactly when the trimmed title is empty, the trimmed
description is empty, or the price is zero; such a failure leaves the store,
including the next-id counter, unchanged, so a subsequent valid mint (by any
caller) still returns the id the failed attempt would otherwise have used. -/
theorem mint_validation_gate (s : SkillTreeStorage) (caller : Principal)
    (title description : String) (price : ℕ) (u : Option ℕ)
    (m : List (String × String)) :
    ((∃ e, (mint_skill_nft s caller title description price u m).1 = .error e) ↔
      (title.rustTrim = "" ∨ description.rustTrim = "" ∨ price = 0)) ∧
    (title.rustTrim = "" ∨ description.rustTrim = "" ∨ price = 0 →
      (∃ e, mint_skill_nft s caller title description price u m = (.error e, s)) ∧
      ∀ (c2 : Principal) (t2 d2 : String) (p2 : ℕ) (u2 : Option ℕ)
        (m2 : List (String × String)),
        t2.rustTrim ≠ "" → d2.rustTrim ≠ "" → p2 ≠ 0 →
        (mint_skill_nft (mint_skill_nft s caller title description price u m).2
            c2 t2 d2 p2 u2 m2).1 = .ok s.next_id) := by
  constructor
  · constructor
    · rintro ⟨e, he⟩
      by_contra hcon
      push_neg at hcon
      obtain ⟨ht, hd, hp⟩ := hcon
      rw [congrArg Prod.fst (mint_of_valid s caller title description price u m ht hd hp)]
        at he
      exact Except.noConfusion he
    · intro h
      obtain ⟨e, he⟩ := mint_of_invalid s caller title description price u m h
      exact ⟨e, congrArg Prod.fst he⟩
  · intro h
    obtain ⟨e, he⟩ := mint_of_invalid s caller title description price u m h
    refine ⟨⟨e, he⟩, ?_⟩
    intro c2 t2 d2 p2 u2 m2 ht2 hd2 hp2
    rw [congrArg Prod.snd he]
    rw [congrArg Prod.fst (mint_of_valid s c2 t2 d2 p2 u2 m2 ht2 hd2 hp2)]

/-- Witness for C6: a blank title makes the mint fail with no state change,
and the next valid mint still gets id 0. -/
theorem mint_validation_gate_witness :
    (blankTitle.rustTrim = "" ∨ sampleDescr.rustTrim = "" ∨ (5 : ℕ) = 0) ∧
    (∃ e, mint_skill_nft initState 0 blankTitle sampleDescr 5 none [] =
      (.error e, initState)) ∧
    (mint_skill_nft (mint_skill_nft initState 0 blankTitle sampleDescr 5 none []).2
        1 sampleTitle sampleDescr 7 none []).1 = .ok initState.next_id := by
  have hcond : blankTitle.rustTrim = "" ∨ sampleDescr.rustTrim = "" ∨ (5 : ℕ) = 0 :=
    Or.inl (by decide)
  have h := (mint_validation_gate initState 0 blankTitle sampleDescr 5 none []).2 hcond
  exact ⟨hcond, h.1,
    h.2 1 sampleTitle sampleDescr 7 none [] (by decide) (by decide) (by decide)⟩

/-- C1 counterexample: principal 0 created asset 0 (price 10) but principal 1
now owns it; the creator buys it back successfully, yet the buyer's balance
does not decrease by the price: the debit and the creator credit hit the same
account and cancel. -/
theorem purchase_debit_counterexample :
    buybackStore.nfts 0 = some nftBuyback ∧
    nftBuyback.creator = 0 ∧ nftBuyback.owner = 1 ∧ nftBuyback.price = 10 ∧
    (purchase_skill_nft buybackStore 0 0).1 = .ok () ∧
    buybackStore.balances 0 = 10 ∧
    (purchase_skill_nft buybackStore 0 0).2.balances 0 = 10 ∧
    ¬((purchase_skill_nft buybackStore 0 0).2.balances 0 + nftBuyback.price =
        buybackStore.balances 0) := by
  refine ⟨rfl, rfl, rfl, rfl, by decide, rfl, by decide, by decide⟩

/-- C1 (amended): every successful purchase sets the asset's owner to the
buyer, clears its resale price, and adds exactly price / 10 (integer
division, truncated) to the creator's royalty accrual; the buyer is debited
by exactly the price and the creator credited by exactly the price whenever
buyer and creator are distinct, and when the buyer is the creator the debit
and credit cancel, leaving that balance unchanged. -/
theorem purchase_success_effects (s : SkillTreeStorage) (buyer : Principal)
    (nft_id : ℕ) (nft : SkillNFT) (hnft : s.nfts nft_id = some nft)
    (hok : (purchase_skill_nft s buyer nft_id).1 = .ok ()) :
    (purchase_skill_nft s buyer nft_id).2.nfts nft_id =
      some { nft with owner := buyer, resale_price := none } ∧
    (purchase_skill_nft s buyer nft_id).2.creator_royalties nft.creator =
      s.creator_royalties nft.creator + nft.price / 10 ∧
    (buyer ≠ nft.creator →
      (purchase_skill_nft s buyer nft_id).2.balances buyer + nft.price =
        s.balances buyer ∧
      (purchase_skill_nft s buyer nft_id).2.balances nft.creator =
        s.balances nft.creator + nft.price) ∧
    (buyer = nft.creator →
      (purchase_skill_nft s buyer nft_id).2.balances buyer = s.balances buyer) := by
  rcases purchase_cases s buyer nft_id with ⟨e, he⟩ | ⟨nft', hn, hact, hown, hbal, he⟩
  · rw [congrArg Prod.fst he] at hok
    exact Except.noConfusion hok
  · rw [hnft] at hn
    injection hn with hnn
    subst hnn
    rw [congrArg Prod.snd he]
    dsimp only
    refine ⟨Function.update_same _ _ _, Function.update_same _ _ _, ?_, ?_⟩
    · intro hbc
      constructor
      · rw [Function.update_noteq hbc, Function.update_same]
        exact Nat.sub_add_cancel hbal
      · rw [Function.update_same, Function.update_noteq (Ne.symm hbc)]
    · intro hbc
      rw [← hbc, Function.update_same, Function.update_same]
      exact Nat.sub_add_cancel hbal

/-- Witness for the amended C1: principal 1 buys asset 0 from its creator-owner
in `listedStore`. -/
theorem purchase_success_effects_witness :
    listedStore.nfts 0 = some nftListed ∧
    (purchase_skill_nft listedStore 1 0).1 = .ok () ∧
    ((purchase_skill_nft listedStore 1 0).2.nfts 0 =
        some { nftListed with owner := 1, resale_price := none } ∧
      (purchase_skill_nft listedStore 1 0).2.creator_royalties nftListed.creator =
        listedStore.creator_royalties nftListed.creator + nftListed.price / 10 ∧
      ((1 : Principal) ≠ nftListed.creator →
        (purchase_skill_nft listedStore 1 0).2.balances 1 + nftListed.price =
          listedStore.balances 1 ∧
        (purchase_skill_nft listedStore 1 0).2.balances nftListed.creator =
          listedStore.balances nftListed.creator + nftListed.price) ∧
      ((1 : Principal) = nftListed.creator →
        (purchase_skill_nft listedStore 1 0).2.balances 1 =
          listedStore.balances 1)) := by
  have hok : (purchase_skill_nft listedStore 1 0).1 = .ok () := by decide
  exact ⟨rfl, hok, purchase_success_effects listedStore 1 0 nftListed rfl hok⟩

/-- C8: a successful transfer rewrites only the transferred asset's owner and
clears its resale price; all balances, all royalty accruals, the next-id
counter, all other assets, and every other field of the transferred asset are
unchanged — a transfer moves no funds. -/
theorem transfer_success_effects (s : SkillTreeStorage) (caller new_owner : Principal)
    (nft_id : ℕ) (nft : SkillNFT) (hnft : s.nfts nft_id = some nft)
    (hok : (transfer_nft_ownership s caller nft_id new_owner).1 = .ok ()) :
    (transfer_nft_ownership s caller nft_id new_owner).2.nfts nft_id =
      some { nft with owner := new_owner, resale_price := none } ∧
    (∀ j : ℕ, j ≠ nft_id →
      (transfer_nft_ownership s caller nft_id new_owner).2.nfts j = s.nfts j) ∧
    (transfer_nft_ownership s caller nft_id new_owner).2.balances = s.balances ∧
    (transfer_nft_ownership s caller nft_id new_owner).2.creator_royalties =
      s.creator_royalties ∧
    (transfer_nft_ownership s caller nft_id new_owner).2.next_id = s.next_id := by
  rcases transfer_cases s caller nft_id new_owner with ⟨e, he⟩ | ⟨nft', hn, _, _, _, he⟩
  · rw [congrArg Prod.fst he] at hok
    exact Except.noConfusion hok
  · rw [hnft] at hn
    injection hn with hnn
    subst hnn
    rw [congrArg Prod.snd he]
    refine ⟨Function.update_same _ _ _, ?_, rfl, rfl, rfl⟩
    intro j hj
    exact Function.update_noteq hj _ _

/-- Witness for C8: owner 0 transfers asset 0 to principal 2 in `listedStore`. -/
theorem transfer_success_effects_witness :
    listedStore.nfts 0 = some nftListed ∧
    (transfer_nft_ownership listedStore 0 0 2).1 = .ok () ∧
    ((transfer_nft_ownership listedStore 0 0 2).2.nfts 0 =
        some { nftListed with owner := 2, resale_price := none } ∧
      (∀ j : ℕ, j ≠ 0 →
        (transfer_nft_ownership listedStore 0 0 2).2.nfts j = listedStore.nfts j) ∧
      (transfer_nft_ownership listedStore 0 0 2).2.balances = listedStore.balances ∧
      (transfer_nft_ownership listedStore 0 0 2).2.creator_royalties =
        listedStore.creator_royalties ∧
      (transfer_nft_ownership listedStore 0 0 2).2.next_id = listedStore.next_id) := by
  have hok : (transfer_nft_ownership listedStore 0 0 2).1 = .ok () := by decide
  exact ⟨rfl, hok, transfer_success_effects listedStore 0 2 0 nftListed rfl hok⟩

/-- C3: top-up with amount 0 fails with the validation error and leaves the
store untouched whatever the external call would have answered (the check
precedes the call, and the call result is an explicit parameter here); when
the external transfer fails, the operation reports the failure and leaves the
store untouched; when it succeeds, the only mutation is adding exactly
`amount` to the caller's balance. -/
theorem add_balance_spec (s : SkillTreeStorage) (caller : Principal) (amount : ℕ)
    (tr : TransferOutcome) (detail : String) (blk : ℕ) (ha : amount ≠ 0) :
    add_balance s caller 0 tr = (.error .amountZero, s) ∧
    add_balance s caller amount (.err detail) = (.error (.transferFailed detail), s) ∧
    (add_balance s caller amount (.ok blk)).1 = .ok () ∧
    (add_balance s caller amount (.ok blk)).2.balances caller =
      s.balances caller + amount ∧
    (∀ q : Principal, q ≠ caller →
      (add_balance s caller amount (.ok blk)).2.balances q = s.balances q) ∧
    (add_balance s caller amount (.ok blk)).2.nfts = s.nfts ∧
    (add_balance s caller amount (.ok blk)).2.next_id = s.next_id ∧
    (add_balance s caller amount (.ok blk)).2.creator_royalties =
      s.creator_royalties := by
  refine ⟨by simp [add_balance], by simp [add_balance, ha], by simp [add_balance, ha],
    by simp [add_balance, ha], ?_, by simp [add_balance, ha], by simp [add_balance, ha],
    by simp [add_balance, ha]⟩
  intro q hq
  simp [add_balance, ha, Function.update_noteq hq]

/-- Witness for C3 with amount 5, caller 0, on the empty store. -/
theorem add_balance_spec_witness :
    (5 : ℕ) ≠ 0 ∧
    add_balance initState 0 0 (TransferOutcome.ok 3) = (.error .amountZero, initState) ∧
    add_balance initState 0 5 (TransferOutcome.err failMsg) =
      (.error (.transferFailed failMsg), initState) ∧
    (add_balance initState 0 5 (TransferOutcome.ok 3)).1 = .ok () ∧
    (add_balance initState 0 5 (TransferOutcome.ok 3)).2.balances 0 =
      initState.balances 0 + 5 := by
  have h := add_balance_spec initState 0 5 (TransferOutcome.ok 3) failMsg 3 (by decide)
  exact ⟨by decide, h.1, h.2.1, h.2.2.1, h.2.2.2.1⟩

/-- C4: along every operation sequence from the initial state, the ids
returned by successful mints are pairwise distinct and strictly increasing in
mint order; each successful mint returns an id strictly greater than every id
returned by any previous successful mint in its trace, and that id is not yet
present in the NFT table. -/
theorem minted_ids_strictly_increasing (ops ops1 : List Op) (op : Op) (id : ℕ)
    (hm : mintResult (run initState ops1) op = some id) :
    List.Sorted (fun a b => a < b) (mintedIds initState ops) ∧
    (∀ j ∈ mintedIds initState ops1, j < id) ∧
    (run initState ops1).nfts id = none := by
  obtain ⟨hid, _⟩ := mintResult_some (run initState ops1) op id hm
  refine ⟨mintedIds_sorted initState ops, ?_, ?_⟩
  · intro j hj
    have := mintedIds_lt_next_id initState ops1 j hj
    omega
  · rcases hn : (run initState ops1).nfts id with _ | nft
    · rfl
    · exfalso
      have hlt := run_invariant initState ops1 initState_invariant id nft hn
      omega

/-- Witness for C4: after one successful mint (id 0), the next successful mint
returns id 1, which exceeds id 0 and is absent from the table. -/
theorem minted_ids_strictly_increasing_witness :
    mintResult (run initState [Op.mint 0 sampleTitle sampleDescr 5 none []])
      (Op.mint 1 sampleTitle sampleDescr 7 none []) = some 1 ∧
    (List.Sorted (fun a b => a < b)
        (mintedIds initState [Op.mint 0 sampleTitle sampleDescr 5 none []]) ∧
      (∀ j ∈ mintedIds initState [Op.mint 0 sampleTitle sampleDescr 5 none []],
        j < 1) ∧
      (run initState [Op.mint 0 sampleTitle sampleDescr 5 none []]).nfts 1 = none) := by
  have hm : mintResult (run initState [Op.mint 0 sampleTitle sampleDescr 5 none []])
      (Op.mint 1 sampleTitle sampleDescr 7 none []) = some 1 := by decide
  exact ⟨hm, minted_ids_strictly_increasing
    [Op.mint 0 sampleTitle sampleDescr 5 none []]
    [Op.mint 0 sampleTitle sampleDescr 5 none []]
    (Op.mint 1 sampleTitle sampleDescr 7 none []) 1 hm⟩

/-! ## Inactivity is permanent -/

lemma step_preserves_inactive (s : SkillTreeStorage) (op : Op) (nft_id : ℕ)
    (nft : SkillNFT) (hinv : nextIdInvariant s) (hnft : s.nfts nft_id = some nft)
    (hina : nft.is_active = false) :
    ∃ nft', (step s op).nfts nft_id = some nft' ∧ nft'.is_active = false := by
  cases op with
  | mint c t d pr u m =>
    show ∃ nft', (mint_skill_nft s c t d pr u m).2.nfts nft_id = some nft' ∧ _
    rcases mint_cases s c t d pr u m with ⟨e, he⟩ | ⟨nftm, he⟩
    · rw [congrArg Prod.snd he]
      exact ⟨nft, hnft, hina⟩
    · rw [he]
      dsimp only
      have hne : nft_id ≠ s.next_id := Nat.ne_of_lt (hinv nft_id nft hnft)
      rw [Function.update_noteq hne]
      exact ⟨nft, hnft, hina⟩
  | purchase b i =>
    show ∃ nft', (purchase_skill_nft s b i).2.nfts nft_id = some nft' ∧ _
    rcases purchase_cases s b i with ⟨e, he⟩ | ⟨nftp, hn, hact, _, _, he⟩
    · rw [congrArg Prod.snd he]
      exact ⟨nft, hnft, hina⟩
    · by_cases hii : nft_id = i
      · exfalso
        subst hii
        rw [hnft] at hn
        injection hn with hnn
        rw [← hnn, hina] at hact
        exact Bool.noConfusion hact
      · rw [congrArg Prod.snd he]
        dsimp only
        rw [Function.update_noteq hii]
        exact ⟨nft, hnft, hina⟩
  | setResalePrice c i pr =>
    show ∃ nft', (set_resale_price s c i pr).2.nfts nft_id = some nft' ∧ _
    rcases set_resale_price_cases s c i pr with ⟨e, he⟩ | ⟨nfts0, hn, he⟩
    · rw [congrArg Prod.snd he]
      exact ⟨nft, hnft, hina⟩
    · rw [he]
      dsimp only
      by_cases hii : nft_id = i
      · subst hii
        rw [hnft] at hn
        injection hn with hnn
        subst hnn
        rw [Function.update_same]
        exact ⟨_, rfl, hina⟩
      · rw [Function.update_noteq hii]
        exact ⟨nft, hnft, hina⟩
  | deactivate c i =>
    show ∃ nft', (deactivate_nft s c i).2.nfts nft_id = some nft' ∧ _
    rcases deactivate_cases s c i with ⟨e, he⟩ | ⟨nftd, hn, he⟩
    · rw [congrArg Prod.snd he]
      exact ⟨nft, hnft, hina⟩
    · rw [he]
      dsimp only
      by_cases hii : nft_id = i
      · subst hii
        rw [Function.update_same]
        exact ⟨_, rfl, rfl⟩
      · rw [Function.update_noteq hii]
        exact ⟨nft, hnft, hina⟩
  | transfer c i o =>
    show ∃ nft', (transfer_nft_ownership s c i o).2.nfts nft_id = some nft' ∧ _
    rcases transfer_cases s c i o with ⟨e, he⟩ | ⟨nftt, hn, _, hact, _, he⟩
    · rw [congrArg Prod.snd he]
      exact ⟨nft, hnft, hina⟩
    · by_cases hii : nft_id = i
      · exfalso
        subst hii
        rw [hnft] at hn
        injection hn with hnn
        rw [← hnn, hina] at hact
        exact Bool.noConfusion hact
      · rw [congrArg Prod.snd he]
        dsimp only
        rw [Function.update_noteq hii]
        exact ⟨nft, hnft, hina⟩
  | topUp c a tr =>
    show ∃ nft', (add_balance s c a tr).2.nfts nft_id = some nft' ∧ _
    rw [add_balance_nfts]
    exact ⟨nft, hnft, hina⟩

lemma run_preserves_inactive (s : SkillTreeStorage) (ops : List Op) (nft_id : ℕ)
    (nft : SkillNFT) (hinv : nextIdInvariant s) (hnft : s.nfts nft_id = some nft)
    (hina : nft.is_active = false) :
    ∃ nft', (run s ops).nfts nft_id = some nft' ∧ nft'.is_active = false := by
  induction ops generalizing s nft with
  | nil => exact ⟨nft, hnft, hina⟩
  | cons op rest ih =>
    obtain ⟨nft1, h1, h2⟩ := step_preserves_inactive s op nft_id nft hinv hnft hina
    exact ih (step s op) nft1 (step_invariant s op hinv) h1 h2

lemma inactiveStore_invariant : nextIdInvariant inactiveStore := by
  intro id nft h
  by_cases hid : id = 0
  · subst hid
    exact Nat.one_pos
  · simp [inactiveStore, hid] at h

/-- C7 counterexample: asset 0 in `inactiveStore` is inactive, yet a transfer
attempt by principal 1, who is not the owner, fails with the authorization
error, not with the inactive-asset error the claim promises for every
transfer of an inactive asset. -/
theorem inactive_transfer_error_counterexample :
    inactiveStore.nfts 0 = some nftInactive ∧ nftInactive.is_active = false ∧
    nftInactive.owner ≠ 1 ∧
    (transfer_nft_ownership inactiveStore 1 0 2).1 = .error .notOwnerTransfer ∧
    (transfer_nft_ownership inactiveStore 1 0 2).1 ≠ .error .inactiveTransfer := by
  refine ⟨rfl, rfl, by decide, by decide, by decide⟩

/-- C7 (amended): once an asset is inactive it stays inactive under every
operation sequence (there is no reactivation path); while it is inactive,
every purchase of it fails with the inactive-asset error, every transfer of
it fails and leaves the store unchanged — with the inactive-asset error when
attempted by the current owner, but with an authorization error for other
callers, as the counterexample shows — and the queries still see the asset:
`get_nft` returns it, `get_user_nfts` keeps it exactly for its owner, and
`get_active_nfts` filters it out. -/
theorem inactive_is_permanent (s : SkillTreeStorage) (nft_id : ℕ) (nft : SkillNFT)
    (hinv : nextIdInvariant s) (hnft : s.nfts nft_id = some nft)
    (hina : nft.is_active = false) :
    (∀ ops : List Op, ∃ nft', (run s ops).nfts nft_id = some nft' ∧
      nft'.is_active = false) ∧
    (∀ buyer : Principal,
      purchase_skill_nft s buyer nft_id = (.error .nftNotActive, s)) ∧
    (∀ new_owner : Principal,
      transfer_nft_ownership s nft.owner nft_id new_owner =
        (.error .inactiveTransfer, s)) ∧
    (∀ caller new_owner : Principal,
      ∃ e, transfer_nft_ownership s caller nft_id new_owner = (.error e, s)) ∧
    get_nft s nft_id = some nft ∧
    (∀ user : Principal, get_user_nfts s user nft_id =
      if nft.owner = user then some nft else none) ∧
    get_active_nfts s nft_id = none := by
  refine ⟨?_, ?_, ?_, ?_, hnft, ?_, ?_⟩
  · intro ops
    exact run_preserves_inactive s ops nft_id nft hinv hnft hina
  · intro buyer
    simp [purchase_skill_nft, hnft, hina]
  · intro o
    simp [transfer_nft_ownership, hnft, hina]
  · intro caller o
    rcases transfer_cases s caller nft_id o with ⟨e, he⟩ | ⟨nftt, hn, _, hact, _, he⟩
    · exact ⟨e, he⟩
    · exfalso
      rw [hnft] at hn
      injection hn with hnn
      rw [← hnn, hina] at hact
      exact Bool.noConfusion hact
  · intro user
    simp [get_user_nfts, hnft]
  · simp [get_active_nfts, hnft, hina]

/-- Witness for the amended C7 on `inactiveStore`. -/
theorem inactive_is_permanent_witness :
    nextIdInvariant inactiveStore ∧
    inactiveStore.nfts 0 = some nftInactive ∧ nftInactive.is_active = false ∧
    (∃ nft', (run inactiveStore [Op.deactivate 0 0]).nfts 0 = some nft' ∧
      nft'.is_active = false) ∧
    purchase_skill_nft inactiveStore 1 0 = (.error .nftNotActive, inactiveStore) ∧
    transfer_nft_ownership inactiveStore nftInactive.owner 0 2 =
      (.error .inactiveTransfer, inactiveStore) ∧
    get_active_nfts inactiveStore 0 = none := by
  have h := inactive_is_permanent inactiveStore 0 nftInactive
    inactiveStore_invariant rfl rfl
  exact ⟨inactiveStore_invariant, rfl, rfl, h.1 [Op.deactivate 0 0], h.2.1 1,
    h.2.2.1 2, h.2.2.2.2.2.2⟩

/-- C5: for any finite set `S` of principals covering the ones a request can
credit or debit, the total of the balances over `S` changes by exactly
`opBalanceDelta`: the amount for a successful top-up and `0` for every other
request — so successful purchases conserve the total (including when the
buyer is the creator: `opPrincipals` then lists one principal twice) and all
failures and all other operations leave it unchanged; principals outside `S`
never see their balance change. -/
theorem total_balance_evolution (s : SkillTreeStorage) (op : Op)
    (S : Finset Principal) (hS : ∀ q ∈ opPrincipals s op, q ∈ S) :
    (∀ q : Principal, q ∉ S → (step s op).balances q = s.balances q) ∧
    (∑ x ∈ S, (step s op).balances x) =
      (∑ x ∈ S, s.balances x) + opBalanceDelta s op := by
  cases op with
  | mint c t d pr u m =>
    constructor
    · intro q _
      show (mint_skill_nft s c t d pr u m).2.balances q = s.balances q
      rw [mint_balances]
    · show (∑ x ∈ S, (mint_skill_nft s c t d pr u m).2.balances x) = _
      rw [mint_balances]
      simp [opBalanceDelta]
  | setResalePrice c i pr =>
    constructor
    · intro q _
      show (set_resale_price s c i pr).2.balances q = s.balances q
      rw [set_resale_price_balances]
    · show (∑ x ∈ S, (set_resale_price s c i pr).2.balances x) = _
      rw [set_resale_price_balances]
      simp [opBalanceDelta]
  | deactivate c i =>
    constructor
    · intro q _
      show (deactivate_nft s c i).2.balances q = s.balances q
      rw [deactivate_balances]
    · show (∑ x ∈ S, (deactivate_nft s c i).2.balances x) = _
      rw [deactivate_balances]
      simp [opBalanceDelta]
  | transfer c i o =>
    constructor
    · intro q _
      show (transfer_nft_ownership s c i o).2.balances q = s.balances q
      rw [transfer_balances]
    · show (∑ x ∈ S, (transfer_nft_ownership s c i o).2.balances x) = _
      rw [transfer_balances]
      simp [opBalanceDelta]
  | purchase b i =>
    rcases purchase_cases s b i with ⟨e, he⟩ | ⟨nft, hn, hact, hown, hbal, he⟩
    · have hb2 : (step s (Op.purchase b i)).balances = s.balances := by
        show (purchase_skill_nft s b i).2.balances = s.balances
        rw [congrArg Prod.snd he]
      constructor
      · intro q _
        rw [hb2]
      · rw [hb2]
        simp [opBalanceDelta]
    · have hbuyer : b ∈ S := hS b (by simp [opPrincipals, hn])
      have hcreator : nft.creator ∈ S := hS nft.creator (by simp [opPrincipals, hn])
      have hb2 : (step s (Op.purchase b i)).balances =
          Function.update (Function.update s.balances b (s.balances b - nft.price))
            nft.creator
            (Function.update s.balances b (s.balances b - nft.price) nft.creator
              + nft.price) := by
        show (purchase_skill_nft s b i).2.balances = _
        rw [congrArg Prod.snd he]
      have hd : opBalanceDelta s (Op.purchase b i) = 0 := rfl
      rw [hd]
      constructor
      · intro q hq
        rw [hb2]
        rw [Function.update_noteq (show q ≠ nft.creator by rintro rfl; exact hq hcreator)]
        rw [Function.update_noteq (show q ≠ b by rintro rfl; exact hq hbuyer)]
      · rw [hb2]
        by_cases hbc : b = nft.creator
        · have hcollapse :
              Function.update (Function.update s.balances b (s.balances b - nft.price))
                nft.creator
                (Function.update s.balances b (s.balances b - nft.price) nft.creator
                  + nft.price) = s.balances := by
            rw [← hbc]
            funext q
            by_cases hqb : q = b
            · subst hqb
              rw [Function.update_same, Function.update_same,
                Nat.sub_add_cancel hbal]
            · rw [Function.update_noteq hqb, Function.update_noteq hqb]
          rw [hcollapse, Nat.add_zero]
        · have hbS : b ∈ S.erase nft.creator := Finset.mem_erase.mpr ⟨hbc, hbuyer⟩
          rw [Finset.sum_update_of_mem hcreator,
            Function.update_noteq (Ne.symm hbc),
            Finset.sdiff_singleton_eq_erase,
            Finset.sum_update_of_mem hbS,
            Finset.sdiff_singleton_eq_erase,
            ← Finset.add_sum_erase S s.balances hcreator,
            ← Finset.add_sum_erase (S.erase nft.creator) s.balances hbS]
          omega
  | topUp c a tr =>
    rcases add_balance_cases s c a tr with ⟨e, he⟩ | ⟨hok, he⟩
    · have hb2 : (step s (Op.topUp c a tr)).balances = s.balances := by
        show (add_balance s c a tr).2.balances = s.balances
        rw [congrArg Prod.snd he]
      have hd : opBalanceDelta s (Op.topUp c a tr) = 0 := by
        have h1 : (add_balance s c a tr).1 = .error e := congrArg Prod.fst he
        simp [opBalanceDelta, h1]
      rw [hd]
      constructor
      · intro q _
        rw [hb2]
      · rw [hb2, Nat.add_zero]
    · have hcS : c ∈ S := hS c (by simp [opPrincipals])
      have hb2 : (step s (Op.topUp c a tr)).balances =
          Function.update s.balances c (s.balances c + a) := by
        show (add_balance s c a tr).2.balances = _
        rw [he]
      have hd : opBalanceDelta s (Op.topUp c a tr) = a := by
        simp [opBalanceDelta, hok]
      rw [hd]
      constructor
      · intro q hq
        rw [hb2]
        rw [Function.update_noteq (show q ≠ c by rintro rfl; exact hq hcS)]
      · rw [hb2]
        rw [Finset.sum_update_of_mem hcS, Finset.sdiff_singleton_eq_erase,
          ← Finset.add_sum_erase S s.balances hcS]
        omega

/-- Witness for C5: principal 1 buys asset 0 from creator-owner 0 in
`listedStore`; the total over the touched principals is conserved. -/
theorem total_balance_evolution_witness :
    (∀ q ∈ opPrincipals listedStore (Op.purchase 1 0),
      q ∈ ({0, 1} : Finset Principal)) ∧
    ((∀ q : Principal, q ∉ ({0, 1} : Finset Principal) →
        (step listedStore (Op.purchase 1 0)).balances q = listedStore.balances q) ∧
      (∑ x ∈ ({0, 1} : Finset Principal),
          (step listedStore (Op.purchase 1 0)).balances x) =
        (∑ x ∈ ({0, 1} : Finset Principal), listedStore.balances x) +
          opBalanceDelta listedStore (Op.purchase 1 0)) := by
  have hS : ∀ q ∈ opPrincipals listedStore (Op.purchase 1 0),
      q ∈ ({0, 1} : Finset Principal) := by decide
  exact ⟨hS, total_balance_evolution listedStore (Op.purchase 1 0) {0, 1} hS⟩
